import Mathlib

/-!
Shallow embedding of the iterative request engine of `defektive/requrse`
(`pkg/request/run.go`, the WebSocket+lists variant: `TemplateRequest`,
`ShouldContinueHTTP`, `ShouldContinueWS`, `Send`, `Recurse`,
`HeaderTemplates`, `getHeaderTplKey`).

External collaborators (the gojq filter engine, `text/template` rendering,
`encoding/json` parsing, and the network) are modelled as oracle functions
gathered in an `Env` / `RunEnv` record; everything the repository's own code
does with their results is embedded faithfully.  Go panics and
`log.Fatal` calls are modelled as `Except.error`.
-/

namespace Requrse

/-- Dynamically shaped JSON value, standing for Go's `any` as produced by
`encoding/json` and consumed by gojq. -/
inductive JsonValue where
  | null
  | bool (b : Bool)
  | num (n : Int)
  | str (s : String)
  | arr (xs : List JsonValue)
  | obj (kvs : List (String × JsonValue))

/-- One element of a gojq result stream, as consumed by the
`iter.Next()` loop in `ShouldContinueHTTP` / `ShouldContinueWS`: a plain
value (`nil` interface = `value .null`), a `*gojq.HaltError` carrying a
payload (`nil` payload = `halt .null`), or any other runtime error value. -/
inductive IterItem where
  | value (v : JsonValue)
  | halt (payload : JsonValue)
  | err (msg : String)

/-- Go struct `SimpleRequest` (path + query multimap). -/
structure SimpleRequest where
  path : String
  query : List (String × List String)
deriving DecidableEq

/-- Go struct `SimpleResponse`: the normalized response.  `bodyObject` and
`bodyArray` are `any` in Go, hence `JsonValue` here. -/
structure SimpleResponse where
  request : SimpleRequest
  status : Int
  rawBody : String
  bodyObject : JsonValue
  bodyArray : JsonValue
  contentType : String
  headers : List (String × List String)

/-- The zero value of `SimpleResponse` (Go zero struct: empty strings,
status 0, nil interfaces marshal to JSON null). -/
def zeroSimpleResponse : SimpleResponse :=
  { request := ⟨"", []⟩, status := 0, rawBody := "",
    bodyObject := .null, bodyArray := .null, contentType := "", headers := [] }

/-- Go struct `RequestContext` (the mutable iteration context).
`lastResponse` is the `*SimpleResponse` pointer: `none` before `Recurse`
first sets it. -/
structure RequestContext where
  host : String
  iteration : Nat
  page : Nat
  pageSize : Nat
  resultOffset : Nat
  authToken : String
  extra : List (String × String)
  listParams : List String
  lastResponse : Option SimpleResponse

/-- Go struct `TemplateRequest` (a loaded request definition plus the
engine's mutable `LastResponse` field).  `headers` is the Go map modelled
as an association list in iteration order. -/
structure TemplateRequest where
  name : String
  url : String
  headers : List (String × String)
  setupBody : String
  body : String
  method : String
  stopWhen : List String
  lists : List (List String)
  lastResponse : SimpleResponse

/-- Oracles for the external libraries: `encoding/json` unmarshalling of a
body into `map[string]any` (`parseObj`) and into `[]map[string]any`
(`parseArr`), gojq parsing+evaluation of a stop-condition string
(`condSem`, `none` = `gojq.Parse` failure), and `text/template`
rendering of a template source against a context (`render`). -/
structure Env where
  parseObj : String → Option (List (String × JsonValue))
  parseArr : String → Option (List (List (String × JsonValue)))
  condSem : String → Option (JsonValue → List IterItem)
  render : String → RequestContext → String

/-- Embeds `maybe := map[string]any{}; json.Unmarshal(body, &maybe)`: on parse
failure the pre-initialized empty map is left in place. -/
def bodyObjectOf (env : Env) (body : String) : JsonValue :=
  match env.parseObj body with
  | some kvs => .obj kvs
  | none => .obj []

/-- Embeds `maybeNot := []map[string]any{}; json.Unmarshal(body, &maybeNot)`: on
parse failure the pre-initialized empty slice is left in place. -/
def bodyArrayOf (env : Env) (body : String) : JsonValue :=
  match env.parseArr body with
  | some objs => .arr (objs.map (fun kvs => .obj kvs))
  | none => .arr []

/-- What the network returned for one HTTP exchange (response metadata the
code reads off `*http.Response` plus the body bytes). -/
structure HttpExchange where
  path : String
  queryV : List (String × List String)
  status : Int
  contentType : String
  headers : List (String × List String)
  body : String
deriving DecidableEq

/-- The `SimpleResponse` built at the top of `ShouldContinueHTTP`. -/
def mkSimpleResponseHTTP (env : Env) (ex : HttpExchange) : SimpleResponse :=
  { request := ⟨ex.path, ex.queryV⟩, status := ex.status, rawBody := ex.body,
    bodyObject := bodyObjectOf env ex.body, bodyArray := bodyArrayOf env ex.body,
    contentType := ex.contentType, headers := ex.headers }

/-- The `SimpleResponse` built at the top of `ShouldContinueWS` (only
`RawBody` and the two body parses are populated; the rest stays zero). -/
def mkSimpleResponseWS (env : Env) (body : String) : SimpleResponse :=
  { request := ⟨"", []⟩, status := 0, rawBody := body,
    bodyObject := bodyObjectOf env body, bodyArray := bodyArrayOf env body,
    contentType := "", headers := [] }

def queryToJson (q : List (String × List String)) : JsonValue :=
  .obj (q.map (fun p => (p.1, .arr (p.2.map .str))))

/-- Embeds `json.Marshal(sr)` followed by `json.Unmarshal` into `map[string]any`:
the struct re-marshaled under its json tags. -/
def SimpleResponse.toJson (sr : SimpleResponse) : JsonValue :=
  .obj [("request", .obj [("path", .str sr.request.path),
                          ("query", queryToJson sr.request.query)]),
        ("status", .num sr.status),
        ("raw_body", .str sr.rawBody),
        ("body_object", sr.bodyObject),
        ("body_array", sr.bodyArray),
        ("content_type", .str sr.contentType),
        ("headers", queryToJson sr.headers)]

/-- The inner `for { v, ok := iter.Next(); ... }` loop over one
expression's result stream: a halt with nil payload breaks out (no match),
a nil value is skipped, and any other item (non-null value, halt with
non-null payload, or runtime error value) makes the whole evaluation
return `false`. -/
def streamMatches : List IterItem → Bool
  | [] => false
  | .halt .null :: _ => false
  | .value .null :: rest => streamMatches rest
  | _ :: _ => true

/-- The `for _, condition := range tr.StopWhen` loop shared by
`ShouldContinueHTTP` and `ShouldContinueWS`: a gojq parse failure panics
(`Except.error`), a matching stream short-circuits to `ok false`, and
exhausting every stream yields `ok true`. -/
def evalStopWhen (env : Env) : List String → JsonValue → Except String Bool
  | [], _ => .ok true
  | c :: rest, r =>
    match env.condSem c with
    | none => .error ("invalid query: " ++ c)
    | some f => if streamMatches (f r) then .ok false else evalStopWhen env rest r

/-- Embeds `ShouldContinueHTTP`: empty `StopWhen` short-circuits to `false`
without touching `tr.LastResponse`; otherwise the fresh normalized
response is stored into `tr.LastResponse` (first component of the result)
and the evaluator runs over its re-marshaled JSON form. -/
def shouldContinueHTTPm (env : Env) (stopWhen : List String) (ex : HttpExchange)
    (last : SimpleResponse) : SimpleResponse × Except String Bool :=
  if stopWhen.isEmpty then (last, .ok false)
  else
    let sr := mkSimpleResponseHTTP env ex
    (sr, evalStopWhen env stopWhen sr.toJson)

/-- Embeds `ShouldContinueWS`: empty `StopWhen` short-circuits to `false`;
otherwise the evaluator runs over the normalized WebSocket message.  Note:
unlike the HTTP variant, nothing is stored into `tr.LastResponse`. -/
def shouldContinueWSm (env : Env) (stopWhen : List String) (body : String) :
    Except String Bool :=
  if stopWhen.isEmpty then .ok false
  else evalStopWhen env stopWhen (mkSimpleResponseWS env body).toJson

/-- Byte-wise prefix test (`strings.HasPrefix`), kernel-computable. -/
def beginsWith : List Char → List Char → Bool
  | [], _ => true
  | _ :: _, [] => false
  | p :: ps, c :: cs => p == c && beginsWith ps cs

/-- Embeds `strings.HasPrefix(s, pat)`. -/
def strBegins (s pat : String) : Bool :=
  beginsWith pat.data s.data

/-- Embeds `strings.ToLower` (ASCII, which is all the engine's keys use). -/
def lowerStr (s : String) : String :=
  String.mk (s.data.map Char.toLower)

/-- A character kept by the package-level `sanitizeRegExp`
(`[^a-zA-Z0-9_-]` replaced by the empty string). -/
def isKeptChar (ch : Char) : Bool :=
  ('a' ≤ ch && ch ≤ 'z') || ('A' ≤ ch && ch ≤ 'Z') ||
    ('0' ≤ ch && ch ≤ '9') || ch == '_' || ch == '-'

/-- Embeds `sanitizeRegExp.ReplaceAllString(s, "")`. -/
def sanitize (s : String) : String :=
  String.mk (s.data.filter isKeptChar)

/-- Embeds `getTemplatePrefix`: lowercase `method_url`, sanitized. -/
def templateKeyRoot (tr : TemplateRequest) : String :=
  sanitize (lowerStr (tr.method ++ "_" ++ tr.url))

/-- Embeds `getHeaderTplKey`: the memoization key for one header's compiled
templates, built from the request prefix, the passed index and the
sanitized lowercase header name. -/
def getHeaderTplKey (tr : TemplateRequest) (header : String) (index : Nat) : String :=
  templateKeyRoot tr ++ "_header_" ++ toString index ++ "_" ++ sanitize (lowerStr header)

/-- A compiled header name/value template pair, identified by its
template sources (compilation itself is `text/template`, external). -/
structure HeaderTemplate where
  headerSrc : String
  valueSrc : String
deriving DecidableEq

/-- Embeds `HeaderTemplates()`: walks the headers map populating the memoization
cache.  Faithful to the source: the local counter `i` is initialized to 0
and never incremented, so every header is keyed with index 0, and a
header whose key is already present in the cache is skipped. -/
def headerTemplatesGo (tr : TemplateRequest) : List (String × HeaderTemplate) :=
  tr.headers.foldl
    (fun cache hv =>
      let key := getHeaderTplKey tr hv.1 0
      if cache.any (fun e => e.1 == key) then cache
      else cache ++ [(key, ⟨hv.1, hv.2⟩)])
    []

/-- The Go runtime panic message for an out-of-range slice index. -/
def outOfRangeMsg (k len : Nat) : String :=
  "index out of range [" ++ toString k ++ "] with length " ++ toString len

/-- The `for _, list := range tr.Lists` body in `Recurse`: draw
`list[reqCount]` from every list (panicking when the index is past a
list's end), appending non-empty values and skipping (logging) empty
ones. -/
def listParamsAt : List (List String) → Nat → Except String (List String)
  | [], _ => .ok []
  | l :: rest, k =>
    match l.get? k with
    | none => .error (outOfRangeMsg k l.length)
    | some v =>
      match listParamsAt rest k with
      | .error e => .error e
      | .ok vs => .ok (if v == "" then vs else v :: vs)

/-- The context mutation at the top of every `Recurse` pass:
`c.Iteration = reqCount; c.Page = reqCount + 1;
c.ResultOffset = c.PageSize * reqCount; c.LastResponse = &tr.LastResponse`. -/
def advanceContext (c : RequestContext) (last : SimpleResponse) (k : Nat) :
    RequestContext :=
  { c with iteration := k, page := k + 1, resultOffset := c.pageSize * k,
           lastResponse := some last }

/-- Context preparation for iteration `k` (`advanceContext` plus the
parameter-feed refresh, which runs only when lists are configured). -/
def stepContext (tr : TemplateRequest) (c : RequestContext) (k : Nat) :
    Except String RequestContext :=
  let c1 := advanceContext c tr.lastResponse k
  if tr.lists.isEmpty then .ok c1
  else
    match listParamsAt tr.lists k with
    | .error e => .error e
    | .ok ps => .ok { c1 with listParams := ps }

/-- The run's external world: the library oracles, the HTTP responses the
network produces (indexed by the iteration that issues the request), and
the stream of messages the WebSocket peer will send over the persistent
connection. -/
structure RunEnv where
  env : Env
  httpResp : Nat → HttpExchange
  wsIncoming : List String

/-- Embeds `Send`: renders URL and body, dispatches on the URL scheme.  HTTP:
one exchange plus the evaluator's verdict (which stores the normalized
response into `tr.LastResponse`).  WebSocket: optional setup write+read
on iteration 0 (setup body sent verbatim, reply discarded), then one
write+read and the evaluator's verdict (no store).  Any other scheme is
the fatal `invalid request`.  Returns body bytes, the continue verdict,
the updated engine state and the new position in the peer's message
stream. -/
def send (renv : RunEnv) (tr : TemplateRequest) (c : RequestContext)
    (wsPos : Nat) : Except String (String × Bool × TemplateRequest × Nat) :=
  let requestURL := renv.env.render tr.url c
  if strBegins requestURL "http" then
    let ex := renv.httpResp c.iteration
    let res := shouldContinueHTTPm renv.env tr.stopWhen ex tr.lastResponse
    match res.2 with
    | .error e => .error e
    | .ok b => .ok (ex.body, b, { tr with lastResponse := res.1 }, wsPos)
  else if strBegins requestURL "ws:" then
    let afterSetup : Except String Nat :=
      if c.iteration == 0 && tr.setupBody != "" then
        match renv.wsIncoming.get? wsPos with
        | none => .error "websocket read failed"
        | some _ => .ok (wsPos + 1)
      else .ok wsPos
    match afterSetup with
    | .error e => .error e
    | .ok pos =>
      match renv.wsIncoming.get? pos with
      | none => .error "websocket read failed"
      | some msg =>
        match shouldContinueWSm renv.env tr.stopWhen msg with
        | .error e => .error e
        | .ok b => .ok (msg, b, tr, pos + 1)
  else .error "invalid request"

/-- Outcome of a run: normal termination (evaluator said stop), a fatal
panic, or fuel exhaustion (the Go loop is unbounded; fuel makes the
model total).  Each carries the trace of (context, body) pairs passed to
the caller's callback, in dispatch order. -/
inductive RunResult where
  | finished (trace : List (RequestContext × String))
  | fatal (msg : String) (trace : List (RequestContext × String))
  | fuelOut (trace : List (RequestContext × String))

/-- The dispatched (context, body) pairs of a run outcome. -/
def RunResult.trace : RunResult → List (RequestContext × String)
  | .finished t => t
  | .fatal _ t => t
  | .fuelOut t => t

/-- Whether the run ended normally (evaluator returned continue = false). -/
def RunResult.isFinished : RunResult → Bool
  | .finished _ => true
  | _ => false

/-- Embeds the loop body of `Recurse`, iteration counter `k` explicit: prepare the
context, perform one `Send` exchange, dispatch the body to the callback,
and loop while the verdict says continue.  Panics abort with the already
dispatched trace intact. -/
def recurseAux (renv : RunEnv) : Nat → Nat → Nat → TemplateRequest →
    RequestContext → List (RequestContext × String) → RunResult
  | 0, _, _, _, _, acc => .fuelOut acc.reverse
  | fuel + 1, k, wsPos, tr, c, acc =>
    match stepContext tr c k with
    | .error e => .fatal e acc.reverse
    | .ok c2 =>
      match send renv tr c2 wsPos with
      | .error e => .fatal e acc.reverse
      | .ok (body, cont, tr2, wsPos2) =>
        if cont then recurseAux renv fuel (k + 1) wsPos2 tr2 c2 ((c2, body) :: acc)
        else .finished (((c2, body) :: acc)).reverse

/-- Embeds `Recurse(c, handleResponse)`: the loop from `reqCount := 0`. -/
def runRecurse (renv : RunEnv) (fuel : Nat) (tr : TemplateRequest)
    (c : RequestContext) : RunResult :=
  recurseAux renv fuel 0 0 tr c []

/-- One observable WebSocket wire action. -/
inductive WSEvent where
  | write (msg : String)
  | read (msg : String)
deriving DecidableEq

/-- The wire actions of the WebSocket branch of `Send`, given the pending
messages of the peer: on iteration 0 with a non-empty setup body, the
setup body is written VERBATIM (`[]byte(tr.SetupBody)`) and one reply is
read and discarded; then the rendered body is written and one reply read.
A missing reply is `log.Fatal`, producing no further events. -/
def sendWSEvents (env : Env) (tr : TemplateRequest) (c : RequestContext)
    (pending : List String) : List WSEvent :=
  if c.iteration == 0 && tr.setupBody != "" then
    .write tr.setupBody ::
      match pending.get? 0 with
      | none => []
      | some m0 => .read m0 ::
          .write (env.render tr.body c) ::
            match pending.get? 1 with
            | none => []
            | some m1 => [.read m1]
  else
    .write (env.render tr.body c) ::
      match pending.get? 0 with
      | none => []
      | some m0 => [.read m0]

/-- Modelled from the spec for comparison with `sendWSEvents`: §2 and §4.1
say the Template Binder renders the optional setup body against the
current iteration context like every other textual field, so here the
setup write carries `env.render tr.setupBody c` instead of the raw
`tr.setupBody`. -/
def sendWSEventsSpec (env : Env) (tr : TemplateRequest) (c : RequestContext)
    (pending : List String) : List WSEvent :=
  if c.iteration == 0 && tr.setupBody != "" then
    .write (env.render tr.setupBody c) ::
      match pending.get? 0 with
      | none => []
      | some m0 => .read m0 ::
          .write (env.render tr.body c) ::
            match pending.get? 1 with
            | none => []
            | some m1 => [.read m1]
  else
    .write (env.render tr.body c) ::
      match pending.get? 0 with
      | none => []
      | some m0 => [.read m0]

/-- First list of a configured family that is too short for iteration `k`
(the one whose indexing panics inside the `for _, list := range tr.Lists`
loop). -/
def firstShort : List (List String) → Nat → Option (List String)
  | [], _ => none
  | l :: rest, k => if l.length ≤ k then some l else firstShort rest k

/-- In the claim's words: position `i` of a result stream holds the first
value the inner loop does not skip, and that value is neither a null
value nor a halt carrying a null payload. -/
def qualifiesAt (s : List IterItem) (i : Nat) : Prop :=
  ∃ v, s.get? i = some v ∧ v ≠ .value .null ∧ v ≠ .halt .null ∧
    ∀ j, j < i → s.get? j = some (.value .null)

/-! Concrete environments and fixtures used by witnesses and
counterexamples. -/

/-- Oracles where nothing parses and rendering is the identity. -/
def demoEnv : Env :=
  { parseObj := fun _ => none, parseArr := fun _ => none,
    condSem := fun _ => none, render := fun t _ => t }

def demoHttp : HttpExchange :=
  { path := "/", queryV := [], status := 200, contentType := "application/json",
    headers := [], body := "ok-body" }

def demoRunEnv : RunEnv := ⟨demoEnv, fun _ => demoHttp, []⟩

def demoReq : TemplateRequest :=
  { name := "t", url := "http://example.com", headers := [], setupBody := "",
    body := "", method := "GET", stopWhen := [], lists := [],
    lastResponse := zeroSimpleResponse }

def demoCtx : RequestContext :=
  { host := "example.com", iteration := 0, page := 0, pageSize := 10,
    resultOffset := 0, authToken := "", extra := [], listParams := [],
    lastResponse := none }

/-- Request with two headers whose names sanitize to the same string. -/
def dupHeaderReq : TemplateRequest :=
  { name := "", url := "http://x", headers := [("X-Tok!", "a"), ("X-Tok?", "b")],
    setupBody := "", body := "", method := "GET", stopWhen := [], lists := [],
    lastResponse := zeroSimpleResponse }

/-- Oracles where the condition q yields one non-null string result. -/
def matchEnv : Env :=
  { parseObj := fun _ => none, parseArr := fun _ => none,
    condSem := fun q => if q == "q" then some (fun _ => [.value (.str "x")]) else none,
    render := fun t _ => t }

/-- Oracles where the condition boom evaluates to a runtime error and any
other condition fails to parse. -/
def errEnv : Env :=
  { parseObj := fun _ => none, parseArr := fun _ => none,
    condSem := fun q =>
      if q == "boom" then some (fun _ => [.err "jq runtime error"]) else none,
    render := fun t _ => t }

/-- A template source referencing the context's host field. -/
def tplHost : String := "\x7b\x7b.Host\x7d\x7d"

/-- Oracles whose renderer substitutes `tplHost` with the host field (a
stand-in for what text/template does to that source). -/
def subEnv : Env :=
  { parseObj := fun _ => none, parseArr := fun _ => none,
    condSem := fun _ => none,
    render := fun t c => if t == tplHost then c.host else t }

/-- WebSocket request whose setup body is a template referencing Host. -/
def wsSetupReq : TemplateRequest :=
  { name := "", url := "ws://x", headers := [], setupBody := tplHost,
    body := "B", method := "GET", stopWhen := [], lists := [],
    lastResponse := zeroSimpleResponse }

/-- The HTTP exchange of `demoRunEnv` with an unparsable body. -/
def exHello : HttpExchange := { demoHttp with body := "hello" }

/-- Oracles where every condition parses and yields an empty stream (the
evaluator always says continue). -/
def contEnv : Env :=
  { parseObj := fun _ => none, parseArr := fun _ => none,
    condSem := fun _ => some (fun _ => []), render := fun t _ => t }

/-- WebSocket request with one stop condition that never matches. -/
def wsReq : TemplateRequest :=
  { name := "", url := "ws://x", headers := [], setupBody := "", body := "B",
    method := "GET", stopWhen := ["any"], lists := [],
    lastResponse := zeroSimpleResponse }

/-- A run world with a WebSocket peer that answers m0 then m1. -/
def wsRunEnv : RunEnv := ⟨contEnv, fun _ => demoHttp, ["m0", "m1"]⟩

/-- HTTP responses distinguishable per iteration (body is the iteration
number). -/
def spyRunEnv : RunEnv :=
  ⟨contEnv, fun k => { demoHttp with body := toString k }, []⟩

/-- HTTP request with one stop condition that never matches. -/
def spyReq : TemplateRequest :=
  { name := "", url := "http://x", headers := [], setupBody := "", body := "",
    method := "GET", stopWhen := ["any"], lists := [],
    lastResponse := zeroSimpleResponse }

/-- Request with a single length-2 list. -/
def listReq : TemplateRequest :=
  { name := "", url := "http://x", headers := [], setupBody := "", body := "",
    method := "GET", stopWhen := [], lists := [["a", "b"]],
    lastResponse := zeroSimpleResponse }

/-! Helper lemmas about the embedded operations. -/

theorem listParamsAt_ok (lists : List (List String)) (k : Nat)
    (h : ∀ l ∈ lists, k < l.length) :
    listParamsAt lists k =
      .ok ((lists.map (fun l => l.getD k "")).filter (fun v => v != "")) := by
  induction lists with
  | nil => rfl
  | cons l rest ih =>
    have hk : k < l.length := h l (List.mem_cons_self l rest)
    have h1 : l.get? k = some (l.get ⟨k, hk⟩) := List.get?_eq_get hk
    have h2 : l.getD k "" = l.get ⟨k, hk⟩ := by
      rw [List.getD_eq_get?, h1, Option.getD_some]
    rw [listParamsAt, h1, ih (fun x hx => h x (List.mem_cons_of_mem l hx))]
    rw [List.map_cons, List.filter_cons, h2]
    cases hb : (l.get ⟨k, hk⟩ == "") with
    | true => simp [hb]
    | false => simp [hb]

theorem firstShort_ne_nil {lists : List (List String)} {k : Nat} {l : List String}
    (h : firstShort lists k = some l) : lists ≠ [] := by
  intro hnil
  subst hnil
  exact Option.noConfusion h

theorem listParamsAt_short (lists : List (List String)) (k : Nat)
    (l : List String) (h : firstShort lists k = some l) :
    listParamsAt lists k = .error (outOfRangeMsg k l.length) := by
  induction lists with
  | nil => exact absurd rfl (firstShort_ne_nil h)
  | cons l0 rest ih =>
    rw [firstShort] at h
    by_cases hle : l0.length ≤ k
    · rw [if_pos hle] at h
      have hl : l = l0 := (Option.some.inj h).symm
      subst hl
      have hn : l.get? k = none := List.get?_eq_none.mpr hle
      rw [listParamsAt, hn]
    · rw [if_neg hle] at h
      have hk : k < l0.length := Nat.lt_of_not_le hle
      have h1 : l0.get? k = some (l0.get ⟨k, hk⟩) := List.get?_eq_get hk
      rw [listParamsAt, h1, ih h]

theorem stepContext_ok_fields {tr : TemplateRequest} {c : RequestContext}
    {k : Nat} {c2 : RequestContext} (h : stepContext tr c k = .ok c2) :
    c2.iteration = k ∧ c2.page = k + 1 ∧ c2.resultOffset = c.pageSize * k ∧
      c2.pageSize = c.pageSize ∧ c2.lastResponse = some tr.lastResponse := by
  unfold stepContext at h
  split at h
  · cases h
    exact ⟨rfl, rfl, rfl, rfl, rfl⟩
  · split at h
    · exact Except.noConfusion h
    · cases h
      exact ⟨rfl, rfl, rfl, rfl, rfl⟩

theorem stepContext_no_lists {tr : TemplateRequest} {c : RequestContext}
    {k : Nat} (h : tr.lists = []) :
    stepContext tr c k = .ok (advanceContext c tr.lastResponse k) := by
  unfold stepContext
  rw [h]
  rfl

theorem stepContext_ok_exists (tr : TemplateRequest) (c : RequestContext)
    (k : Nat) (h : ∀ l ∈ tr.lists, k < l.length) :
    ∃ c2, stepContext tr c k = .ok c2 := by
  unfold stepContext
  by_cases he : tr.lists.isEmpty
  · rw [if_pos he]
    exact ⟨_, rfl⟩
  · rw [if_neg he, listParamsAt_ok tr.lists k h]
    exact ⟨_, rfl⟩

/-- C9: in `HeaderTemplates` the header index that `getHeaderTplKey` is
given is the local counter `i`, which is initialized to 0 and never
incremented; with two headers whose names sanitize to the same normalized
string the two memoization keys coincide, the cache-presence check skips
the second header, and only one compiled name/value template pair exists —
the second header is lost, exactly what the per-header distinct index was
meant to prevent.  (`dupHeaderReq` has headers X-Tok! and X-Tok?.) -/
theorem c9_header_index_never_incremented :
    dupHeaderReq.headers.length = 2 ∧
    getHeaderTplKey dupHeaderReq "X-Tok!" 0 = getHeaderTplKey dupHeaderReq "X-Tok?" 0 ∧
    getHeaderTplKey dupHeaderReq "X-Tok!" 0 ≠ getHeaderTplKey dupHeaderReq "X-Tok?" 1 ∧
    (headerTemplatesGo dupHeaderReq).length = 1 ∧
    (headerTemplatesGo dupHeaderReq).map (fun e => e.2.valueSrc) = ["a"] := by
  refine ⟨rfl, rfl, ?_, rfl, rfl⟩
  intro h
  have : ("get_httpx_header_0_x-tok" : String) = "get_httpx_header_1_x-tok" := h
  exact absurd this (by decide)

/-- C10: when every configured list is long enough for iteration `k`, the
parameter feed succeeds and `ListParams` is exactly the `k`-th column of
the lists with the empty values filtered out, in list order; consequently,
when some list holds the empty string at index `k`, `ListParams` has
strictly fewer elements than there are lists (later values shift into
earlier positions). -/
theorem c10_listparams_filter_column (lists : List (List String)) (k : Nat)
    (hlen : ∀ l ∈ lists, k < l.length) :
    listParamsAt lists k =
      .ok ((lists.map (fun l => l.getD k "")).filter (fun v => v != "")) ∧
    ((∃ l ∈ lists, l.getD k "" = "") →
      ((lists.map (fun l => l.getD k "")).filter (fun v => v != "")).length <
        lists.length) := by
  refine ⟨listParamsAt_ok lists k hlen, ?_⟩
  rintro ⟨l, hl, hval⟩
  have h2 : ∃ x ∈ lists.map (fun l => l.getD k ""), ¬((x != "") = true) := by
    refine ⟨l.getD k "", List.mem_map_of_mem _ hl, ?_⟩
    rw [hval]
    decide
  calc ((lists.map (fun l => l.getD k "")).filter (fun v => v != "")).length
      < (lists.map (fun l => l.getD k "")).length :=
        List.length_filter_lt_length_iff_exists.mpr h2
    _ = lists.length := List.length_map _ _

/-- Witness for C10 at lists [[a, empty], [b, c]] and iteration 1. -/
theorem c10_witness :
    listParamsAt [["a", ""], ["b", "c"]] 1 = .ok ["c"] ∧
    ((([["a", ""], ["b", "c"]].map (fun l => l.getD 1 "")).filter
        (fun v => v != "")).length < 2) := by
  have h := c10_listparams_filter_column [["a", ""], ["b", "c"]] 1 (by decide)
  exact ⟨h.1, h.2 ⟨["a", ""], by simp, rfl⟩⟩

/-- C4: whenever `Recurse` attempts an iteration `k` that lies past the
end of some configured list, the run terminates at once with the Go
runtime's out-of-range fault naming the index and the exhausted list's
length, and dispatches no further response — values are never wrapped
around or repeated.  (`firstShort` is the list whose indexing faults.) -/
theorem c4_list_exhaustion_faults (renv : RunEnv) (tr : TemplateRequest)
    (c : RequestContext) (k wsPos fuel : Nat)
    (acc : List (RequestContext × String)) (l : List String)
    (hshort : firstShort tr.lists k = some l) (hfuel : 1 ≤ fuel) :
    recurseAux renv fuel k wsPos tr c acc =
      .fatal (outOfRangeMsg k l.length) acc.reverse := by
  obtain ⟨f, rfl⟩ : ∃ f, fuel = f + 1 :=
    ⟨fuel - 1, (Nat.succ_pred_eq_of_pos hfuel).symm⟩
  have hne : tr.lists ≠ [] := firstShort_ne_nil hshort
  have hemp : tr.lists.isEmpty = false := by
    cases hl : tr.lists with
    | nil => exact absurd hl hne
    | cons a as => rfl
  have hstep : stepContext tr c k = .error (outOfRangeMsg k l.length) := by
    unfold stepContext
    rw [if_neg (by rw [hemp]; exact Bool.false_ne_true),
      listParamsAt_short tr.lists k l hshort]
  rw [recurseAux, hstep]

/-- Witness for C4: one list of length 2 and an attempted 3rd iteration. -/
theorem c4_witness :
    recurseAux demoRunEnv 5 2 0 listReq demoCtx [] =
      .fatal (outOfRangeMsg 2 2) [] :=
  c4_list_exhaustion_faults demoRunEnv listReq demoCtx 2 0 5 [] ["a", "b"]
    rfl (by decide)

/-- C6 counterexample: with a body that parses as neither a JSON object
nor a JSON array (parse oracles return none, as for the body hello), the
normalized value's body-as-object form is the EMPTY OBJECT left over from
the pre-initialized map, and the body-as-array form the EMPTY ARRAY — not
absent/null as the claim states. -/
theorem c6_counterexample :
    (mkSimpleResponseWS demoEnv "hello").bodyObject = .obj [] ∧
    (mkSimpleResponseWS demoEnv "hello").bodyObject ≠ .null ∧
    (mkSimpleResponseWS demoEnv "hello").bodyArray = .arr [] ∧
    (mkSimpleResponseWS demoEnv "hello").bodyArray ≠ .null := by
  refine ⟨rfl, ?_, rfl, ?_⟩
  · intro h
    exact JsonValue.noConfusion h
  · intro h
    exact JsonValue.noConfusion h

/-- C6 amended: for every raw body that parses as neither a JSON object
nor a JSON array, normalization still succeeds and yields a normalized
value whose body-as-object form is the empty object and whose
body-as-array form is the empty array (the zero values the failed
unmarshal leaves in place), while the raw body text is preserved
unchanged — on both the HTTP and the WebSocket path. -/
theorem c6_unparsable_body_normalization (env : Env) (body : String)
    (ex : HttpExchange) (hobj : env.parseObj body = none)
    (harr : env.parseArr body = none) (hex : ex.body = body) :
    (mkSimpleResponseWS env body).bodyObject = .obj [] ∧
    (mkSimpleResponseWS env body).bodyArray = .arr [] ∧
    (mkSimpleResponseWS env body).rawBody = body ∧
    (mkSimpleResponseHTTP env ex).bodyObject = .obj [] ∧
    (mkSimpleResponseHTTP env ex).bodyArray = .arr [] ∧
    (mkSimpleResponseHTTP env ex).rawBody = body := by
  simp [mkSimpleResponseWS, mkSimpleResponseHTTP, bodyObjectOf, bodyArrayOf,
    hobj, harr, hex]

/-- Witness for C6 at the body hello. -/
theorem c6_witness :
    (mkSimpleResponseWS demoEnv "hello").bodyObject = .obj [] ∧
    (mkSimpleResponseWS demoEnv "hello").bodyArray = .arr [] ∧
    (mkSimpleResponseWS demoEnv "hello").rawBody = "hello" ∧
    (mkSimpleResponseHTTP demoEnv exHello).bodyObject = .obj [] ∧
    (mkSimpleResponseHTTP demoEnv exHello).bodyArray = .arr [] ∧
    (mkSimpleResponseHTTP demoEnv exHello).rawBody = "hello" :=
  c6_unparsable_body_normalization demoEnv "hello" exHello rfl rfl rfl

theorem send_http_empty (renv : RunEnv) (tr : TemplateRequest)
    (c : RequestContext) (wsPos : Nat)
    (hurl : strBegins (renv.env.render tr.url c) "http" = true)
    (hsw : tr.stopWhen = []) :
    send renv tr c wsPos =
      .ok ((renv.httpResp c.iteration).body, false, tr, wsPos) := by
  obtain ⟨nm, u, hd, sb, bd, mth, sw, ls, lr⟩ := tr
  simp only at hsw
  subst hsw
  simp [send, shouldContinueHTTPm, hurl]

/-- C1: with an empty (or absent) stop_when list the continue decision
after the first exchange is false, so a well-formed run — lists long
enough for iteration 0 and a rendered URL on the HTTP scheme — terminates
normally after dispatching exactly one response to the callback. -/
theorem c1_empty_stopwhen_single_exchange (renv : RunEnv)
    (tr : TemplateRequest) (c : RequestContext) (fuel : Nat)
    (hsw : tr.stopWhen = [])
    (hlen : ∀ l ∈ tr.lists, 0 < l.length)
    (hurl : ∀ c', strBegins (renv.env.render tr.url c') "http" = true)
    (hfuel : 1 ≤ fuel) :
    (runRecurse renv fuel tr c).isFinished = true ∧
    (runRecurse renv fuel tr c).trace.length = 1 := by
  obtain ⟨f, rfl⟩ : ∃ f, fuel = f + 1 :=
    ⟨fuel - 1, (Nat.succ_pred_eq_of_pos hfuel).symm⟩
  obtain ⟨c2, hstep⟩ := stepContext_ok_exists tr c 0 hlen
  have hsend := send_http_empty renv tr c2 0 (hurl c2) hsw
  unfold runRecurse
  simp [recurseAux, hstep, hsend, RunResult.isFinished, RunResult.trace]

/-- Witness for C1 at a definition with no stop conditions. -/
theorem c1_witness :
    (runRecurse demoRunEnv 1 demoReq demoCtx).isFinished = true ∧
    (runRecurse demoRunEnv 1 demoReq demoCtx).trace.length = 1 :=
  c1_empty_stopwhen_single_exchange demoRunEnv demoReq demoCtx 1 rfl
    (fun l hl => absurd hl (List.not_mem_nil l)) (fun _ => rfl) (by decide)

/-- C5 counterexample: the WebSocket branch of `Send` writes the setup
body VERBATIM — it never passes it through the Template Binder.  With a
renderer that substitutes the Host reference, the code's wire trace
(`sendWSEvents`) starts with the raw template text, while the trace the
spec describes (`sendWSEventsSpec`, setup body rendered like URL, headers
and body) starts with the substituted host; the two differ. -/
theorem c5_counterexample :
    sendWSEvents subEnv wsSetupReq demoCtx ["r0", "r1"] =
      [.write tplHost, .read "r0", .write "B", .read "r1"] ∧
    sendWSEventsSpec subEnv wsSetupReq demoCtx ["r0", "r1"] =
      [.write "example.com", .read "r0", .write "B", .read "r1"] ∧
    sendWSEvents subEnv wsSetupReq demoCtx ["r0", "r1"] ≠
      sendWSEventsSpec subEnv wsSetupReq demoCtx ["r0", "r1"] := by
  refine ⟨rfl, rfl, ?_⟩
  intro h
  have h2 : ([.write tplHost, .read "r0", .write "B", .read "r1"] :
      List WSEvent) = [.write "example.com", .read "r0", .write "B", .read "r1"] := h
  exact absurd h2 (by decide)

/-- C5 amended: the extra write-then-read exchange happens exactly when
the iteration counter is 0 and the setup_body template source is
non-empty; the setup body is sent VERBATIM (not rendered by the Template
Binder), its single reply is read and discarded, and only then does the
counted exchange (rendered body write plus one read) take place.  On any
later iteration the setup exchange does not occur. -/
theorem c5_setup_exchange (env : Env) (tr : TemplateRequest)
    (c : RequestContext) (m0 m1 : String) (rest : List String)
    (hsetup : tr.setupBody ≠ "") :
    (c.iteration = 0 →
      sendWSEvents env tr c (m0 :: m1 :: rest) =
        [.write tr.setupBody, .read m0, .write (env.render tr.body c), .read m1]) ∧
    (c.iteration ≠ 0 →
      sendWSEvents env tr c (m0 :: m1 :: rest) =
        [.write (env.render tr.body c), .read m0]) := by
  constructor
  · intro h0
    unfold sendWSEvents
    rw [h0]
    simp [hsetup]
  · intro h0
    unfold sendWSEvents
    have hb : (c.iteration == 0) = false := by
      simpa using h0
    rw [hb]
    simp

/-- Witness for C5 amended, on iteration 0 with a non-empty setup body. -/
theorem c5_witness :
    sendWSEvents subEnv wsSetupReq demoCtx ("r0" :: "r1" :: []) =
      [.write wsSetupReq.setupBody, .read "r0",
       .write (subEnv.render wsSetupReq.body demoCtx), .read "r1"] :=
  (c5_setup_exchange subEnv wsSetupReq demoCtx "r0" "r1" [] (by decide)).1 rfl

/-- C3 counterexample: a stop_when expression whose evaluation produces a
runtime error (here the condition boom, whose stream holds one gojq
runtime error value) does NOT abort the run: the evaluator returns the
ordinary decision continue = false, never a fatal error. -/
theorem c3_counterexample :
    evalStopWhen errEnv ["boom"] .null = .ok false ∧
    evalStopWhen errEnv ["boom"] .null ≠ .error "jq runtime error" := by
  refine ⟨rfl, ?_⟩
  intro h
  have h0 : evalStopWhen errEnv ["boom"] .null = .ok false := rfl
  rw [h0] at h
  exact Except.noConfusion h

/-- C3 amended: an expression that fails to parse is fatal to the run
(the evaluator aborts with the parse error when it reaches that
expression); but a runtime error produced while evaluating an expression
(other than a halt carrying a null payload) is NOT fatal — it is treated
like any non-null result and yields the ordinary decision
continue = false. -/
theorem c3_parse_fatal_runtime_not (env : Env) (cond : String)
    (rest : List String) (r : JsonValue) :
    (env.condSem cond = none →
      evalStopWhen env (cond :: rest) r = .error ("invalid query: " ++ cond)) ∧
    (∀ f msg tail, env.condSem cond = some f → f r = .err msg :: tail →
      evalStopWhen env (cond :: rest) r = .ok false) := by
  constructor
  · intro h
    rw [evalStopWhen, h]
  · intro f msg tail hf hfr
    have hm : streamMatches (IterItem.err msg :: tail) = true := rfl
    simp [evalStopWhen, hf, hfr, hm]

/-- Witness for C3 amended: a non-parsing condition aborts, a runtime
error yields an ordinary stop decision. -/
theorem c3_witness :
    evalStopWhen errEnv ["noparse"] .null = .error ("invalid query: " ++ "noparse") ∧
    evalStopWhen errEnv ["boom"] .null = .ok false :=
  ⟨(c3_parse_fatal_runtime_not errEnv "noparse" [] .null).1 rfl,
   (c3_parse_fatal_runtime_not errEnv "boom" [] .null).2
     (fun _ => [.err "jq runtime error"]) "jq runtime error" [] rfl rfl⟩

theorem qualifiesAt_cons_zero {item : IterItem} {s : List IterItem} :
    qualifiesAt (item :: s) 0 ↔ item ≠ .value .null ∧ item ≠ .halt .null := by
  constructor
  · rintro ⟨v, hv, h1, h2, -⟩
    rw [List.get?_cons_zero] at hv
    cases Option.some.inj hv
    exact ⟨h1, h2⟩
  · rintro ⟨h1, h2⟩
    exact ⟨item, rfl, h1, h2, fun j hj => absurd hj (Nat.not_lt_zero j)⟩

theorem qualifiesAt_cons_succ {item : IterItem} {s : List IterItem} {i : Nat} :
    qualifiesAt (item :: s) (i + 1) ↔ item = .value .null ∧ qualifiesAt s i := by
  constructor
  · rintro ⟨v, hv, h1, h2, hpre⟩
    rw [List.get?_cons_succ] at hv
    have h0 := hpre 0 (Nat.succ_pos i)
    rw [List.get?_cons_zero] at h0
    refine ⟨Option.some.inj h0, v, hv, h1, h2, fun j hj => ?_⟩
    have hj2 := hpre (j + 1) (Nat.succ_lt_succ hj)
    rwa [List.get?_cons_succ] at hj2
  · rintro ⟨hitem, v, hv, h1, h2, hpre⟩
    refine ⟨v, by rwa [List.get?_cons_succ], h1, h2, fun j hj => ?_⟩
    cases j with
    | zero => rw [List.get?_cons_zero, hitem]
    | succ j =>
      rw [List.get?_cons_succ]
      exact hpre j (Nat.lt_of_succ_lt_succ hj)

theorem streamMatches_cons_other {item : IterItem} {s : List IterItem}
    (h1 : item ≠ .value .null) (h2 : item ≠ .halt .null) :
    streamMatches (item :: s) = true := by
  cases item with
  | value v =>
    cases v with
    | null => exact absurd rfl h1
    | bool b => rfl
    | num n => rfl
    | str s2 => rfl
    | arr xs => rfl
    | obj kvs => rfl
  | halt p =>
    cases p with
    | null => exact absurd rfl h2
    | bool b => rfl
    | num n => rfl
    | str s2 => rfl
    | arr xs => rfl
    | obj kvs => rfl
  | err m => rfl

theorem streamMatches_iff (s : List IterItem) :
    streamMatches s = true ↔ ∃ i, qualifiesAt s i := by
  induction s with
  | nil =>
    constructor
    · intro h
      exact Bool.noConfusion (show (false : Bool) = true from h)
    · rintro ⟨i, v, hv, -⟩
      rw [List.get?_nil] at hv
      exact Option.noConfusion hv
  | cons item rest ih =>
    by_cases h2 : item = .halt .null
    · subst h2
      constructor
      · intro h
        exact Bool.noConfusion (show (false : Bool) = true from h)
      · rintro ⟨i, hq⟩
        cases i with
        | zero =>
          obtain ⟨-, hne⟩ := qualifiesAt_cons_zero.mp hq
          exact absurd rfl hne
        | succ i =>
          obtain ⟨hitem, -⟩ := qualifiesAt_cons_succ.mp hq
          exact IterItem.noConfusion hitem
    · by_cases h1 : item = .value .null
      · subst h1
        have hred : streamMatches (IterItem.value .null :: rest) =
            streamMatches rest := rfl
        rw [hred, ih]
        constructor
        · rintro ⟨i, hq⟩
          exact ⟨i + 1, qualifiesAt_cons_succ.mpr ⟨rfl, hq⟩⟩
        · rintro ⟨i, hq⟩
          cases i with
          | zero =>
            obtain ⟨ha, -⟩ := qualifiesAt_cons_zero.mp hq
            exact absurd rfl ha
          | succ i => exact ⟨i, (qualifiesAt_cons_succ.mp hq).2⟩
      · rw [streamMatches_cons_other h1 h2]
        exact iff_of_true rfl ⟨0, qualifiesAt_cons_zero.mpr ⟨h1, h2⟩⟩

theorem evalStopWhen_ok_false_iff (env : Env) (conds : List String)
    (r : JsonValue) (hp : ∀ cond ∈ conds, (env.condSem cond).isSome = true) :
    evalStopWhen env conds r = .ok false ↔
      ∃ cond ∈ conds, ∃ f, env.condSem cond = some f ∧
        streamMatches (f r) = true := by
  induction conds with
  | nil => simp [evalStopWhen]
  | cons cond rest ih =>
    obtain ⟨f, hf⟩ :=
      Option.isSome_iff_exists.mp (hp cond (List.mem_cons_self cond rest))
    have ihr := ih (fun x hx => hp x (List.mem_cons_of_mem _ hx))
    simp only [evalStopWhen, hf]
    by_cases hm : streamMatches (f r) = true
    · rw [if_pos hm]
      exact iff_of_true rfl ⟨cond, List.mem_cons_self cond rest, f, hf, hm⟩
    · rw [if_neg hm, ihr]
      constructor
      · rintro ⟨cond2, hc2, f2, hf2, hm2⟩
        exact ⟨cond2, List.mem_cons_of_mem _ hc2, f2, hf2, hm2⟩
      · rintro ⟨cond2, hc2, f2, hf2, hm2⟩
        rcases List.mem_cons.mp hc2 with hceq | hcrest
        · subst hceq
          rw [hf] at hf2
          cases Option.some.inj hf2
          exact absurd hm2 hm
        · exact ⟨cond2, hcrest, f2, hf2, hm2⟩

theorem evalStopWhen_ok_true_iff (env : Env) (conds : List String)
    (r : JsonValue) (hp : ∀ cond ∈ conds, (env.condSem cond).isSome = true) :
    evalStopWhen env conds r = .ok true ↔
      ∀ cond ∈ conds, ∀ f, env.condSem cond = some f →
        streamMatches (f r) = false := by
  induction conds with
  | nil => simp [evalStopWhen]
  | cons cond rest ih =>
    obtain ⟨f, hf⟩ :=
      Option.isSome_iff_exists.mp (hp cond (List.mem_cons_self cond rest))
    have ihr := ih (fun x hx => hp x (List.mem_cons_of_mem _ hx))
    simp only [evalStopWhen, hf]
    by_cases hm : streamMatches (f r) = true
    · rw [if_pos hm]
      constructor
      · intro h
        exact absurd h (by simp)
      · intro h
        have hc := h cond (List.mem_cons_self cond rest) f hf
        rw [hm] at hc
        exact Bool.noConfusion hc
    · rw [if_neg hm, ihr]
      have hmf : streamMatches (f r) = false := Bool.eq_false_iff.mpr hm
      constructor
      · intro h cond2 hc2 f2 hf2
        rcases List.mem_cons.mp hc2 with hceq | hcrest
        · subst hceq
          rw [hf] at hf2
          cases Option.some.inj hf2
          exact hmf
        · exact h cond2 hcrest f2 hf2
      · intro h cond2 hc2 f2 hf2
        exact h cond2 (List.mem_cons_of_mem _ hc2) f2 hf2

/-- C2: for a non-empty stop_when list whose expressions all parse, the
evaluator returns continue = false exactly when some expression's result
stream produces a qualifying value — a non-null value that is not a halt
carrying a null payload, at the first position the inner loop does not
skip (`qualifiesAt`) — and continue = true exactly when every
expression's stream is exhausted with no such value; a halt with a null
payload thus counts as no match for its expression. -/
theorem c2_evaluator_characterization (env : Env) (conds : List String)
    (r : JsonValue) (hne : conds ≠ [])
    (hp : ∀ cond ∈ conds, (env.condSem cond).isSome = true) :
    (evalStopWhen env conds r = .ok false ↔
      ∃ cond ∈ conds, ∃ f, env.condSem cond = some f ∧
        ∃ i, qualifiesAt (f r) i) ∧
    (evalStopWhen env conds r = .ok true ↔
      ∀ cond ∈ conds, ∀ f, env.condSem cond = some f →
        ∀ i, ¬ qualifiesAt (f r) i) := by
  constructor
  · rw [evalStopWhen_ok_false_iff env conds r hp]
    constructor
    · rintro ⟨cond, hc, f, hf, hm⟩
      exact ⟨cond, hc, f, hf, (streamMatches_iff (f r)).mp hm⟩
    · rintro ⟨cond, hc, f, hf, hq⟩
      exact ⟨cond, hc, f, hf, (streamMatches_iff (f r)).mpr hq⟩
  · rw [evalStopWhen_ok_true_iff env conds r hp]
    constructor
    · intro h cond hc f hf i hq
      have hc2 := h cond hc f hf
      rw [(streamMatches_iff (f r)).mpr ⟨i, hq⟩] at hc2
      exact Bool.noConfusion hc2
    · intro h cond hc f hf
      rw [Bool.eq_false_iff]
      intro hm
      obtain ⟨i, hq⟩ := (streamMatches_iff (f r)).mp hm
      exact h cond hc f hf i hq

/-- Witness for C2 at one condition whose stream holds one string. -/
theorem c2_witness :
    (evalStopWhen matchEnv ["q"] .null = .ok false ↔
      ∃ cond ∈ ["q"], ∃ f, matchEnv.condSem cond = some f ∧
        ∃ i, qualifiesAt (f JsonValue.null) i) ∧
    (evalStopWhen matchEnv ["q"] .null = .ok true ↔
      ∀ cond ∈ ["q"], ∀ f, matchEnv.condSem cond = some f →
        ∀ i, ¬ qualifiesAt (f JsonValue.null) i) :=
  c2_evaluator_characterization matchEnv ["q"] .null (by simp)
    (by
      intro cond hc
      rw [List.mem_singleton] at hc
      subst hc
      rfl)

theorem recurseAux_trace_shape (renv : RunEnv) :
    ∀ (fuel k wsPos : Nat) (tr : TemplateRequest) (c : RequestContext)
      (acc : List (RequestContext × String)),
      ∃ tail, (recurseAux renv fuel k wsPos tr c acc).trace = acc.reverse ++ tail ∧
        ∀ i e, tail.get? i = some e →
          e.1.iteration = k + i ∧ e.1.page = k + i + 1 ∧
            e.1.resultOffset = c.pageSize * (k + i) := by
  intro fuel
  induction fuel with
  | zero =>
    intro k wsPos tr c acc
    refine ⟨[], by simp [recurseAux, RunResult.trace], ?_⟩
    intro i e he
    rw [List.get?_nil] at he
    exact Option.noConfusion he
  | succ n ih =>
    intro k wsPos tr c acc
    cases hstep : stepContext tr c k with
    | error e =>
      have hred : recurseAux renv (n + 1) k wsPos tr c acc = .fatal e acc.reverse := by
        simp [recurseAux, hstep]
      refine ⟨[], by rw [hred]; simp [RunResult.trace], ?_⟩
      intro i e2 he
      rw [List.get?_nil] at he
      exact Option.noConfusion he
    | ok c2 =>
      obtain ⟨hit, hpg, hoff, hps, -⟩ := stepContext_ok_fields hstep
      cases hsend : send renv tr c2 wsPos with
      | error e =>
        have hred : recurseAux renv (n + 1) k wsPos tr c acc = .fatal e acc.reverse := by
          simp [recurseAux, hstep, hsend]
        refine ⟨[], by rw [hred]; simp [RunResult.trace], ?_⟩
        intro i e2 he
        rw [List.get?_nil] at he
        exact Option.noConfusion he
      | ok res =>
        obtain ⟨body, cont, tr2, wsPos2⟩ := res
        cases cont with
        | false =>
          have hred : recurseAux renv (n + 1) k wsPos tr c acc =
              .finished (((c2, body) :: acc)).reverse := by
            simp [recurseAux, hstep, hsend]
          refine ⟨[(c2, body)], ?_, ?_⟩
          · rw [hred]
            simp [RunResult.trace, List.reverse_cons]
          · intro i e he
            cases i with
            | zero =>
              rw [List.get?_cons_zero] at he
              cases Option.some.inj he
              exact ⟨by simpa using hit, by simpa using hpg, by simpa using hoff⟩
            | succ i =>
              rw [List.get?_cons_succ, List.get?_nil] at he
              exact Option.noConfusion he
        | true =>
          obtain ⟨tail2, htr2, hprop2⟩ := ih (k + 1) wsPos2 tr2 c2 ((c2, body) :: acc)
          have hred : recurseAux renv (n + 1) k wsPos tr c acc =
              recurseAux renv n (k + 1) wsPos2 tr2 c2 ((c2, body) :: acc) := by
            simp [recurseAux, hstep, hsend]
          refine ⟨(c2, body) :: tail2, ?_, ?_⟩
          · rw [hred, htr2]
            simp [List.reverse_cons]
          · intro i e he
            cases i with
            | zero =>
              rw [List.get?_cons_zero] at he
              cases Option.some.inj he
              exact ⟨by simpa using hit, by simpa using hpg, by simpa using hoff⟩
            | succ i =>
              rw [List.get?_cons_succ] at he
              obtain ⟨h1, h2, h3⟩ := hprop2 i e he
              have hk : k + 1 + i = k + (i + 1) := by omega
              refine ⟨?_, ?_, ?_⟩
              · rw [h1, hk]
              · rw [h2, hk]
              · rw [h3, hps, hk]

/-- C8: in every run, the context visible to templates on the iteration
that produced the k-th dispatched response (0-indexed) carries
Iteration = k, Page = k + 1 and ResultOffset = PageSize × k, the page
size being the caller's initial one. -/
theorem c8_page_offset (renv : RunEnv) (tr : TemplateRequest)
    (c : RequestContext) (fuel : Nat) (hlists : tr.lists = []) :
    ∀ i e, (runRecurse renv fuel tr c).trace.get? i = some e →
      e.1.iteration = i ∧ e.1.page = i + 1 ∧
        e.1.resultOffset = c.pageSize * i := by
  intro i e hget
  obtain ⟨tail, htr, hprop⟩ := recurseAux_trace_shape renv fuel 0 0 tr c []
  rw [runRecurse] at hget
  rw [htr] at hget
  simp only [List.reverse_nil, List.nil_append] at hget
  obtain ⟨h1, h2, h3⟩ := hprop i e hget
  exact ⟨by simpa using h1, by simpa using h2, by simpa using h3⟩

/-- Witness for C8 at the first iteration of a one-exchange run. -/
theorem c8_witness :
    (runRecurse demoRunEnv 1 demoReq demoCtx).trace.get? 0 =
      some (advanceContext demoCtx zeroSimpleResponse 0, "ok-body") ∧
    (advanceContext demoCtx zeroSimpleResponse 0).iteration = 0 ∧
    (advanceContext demoCtx zeroSimpleResponse 0).page = 0 + 1 ∧
    (advanceContext demoCtx zeroSimpleResponse 0).resultOffset =
      demoCtx.pageSize * 0 :=
  ⟨by rfl,
   c8_page_offset demoRunEnv demoReq demoCtx 1 rfl 0
     (advanceContext demoCtx zeroSimpleResponse 0, "ok-body") (by rfl)⟩

theorem list_isEmpty_false_of_ne_nil {α : Type} {l : List α} (h : l ≠ []) :
    l.isEmpty = false := by
  cases hl : l with
  | nil => exact absurd hl h
  | cons a as => rfl

theorem send_http_ok (renv : RunEnv) (tr : TemplateRequest)
    (c : RequestContext) (wsPos : Nat) (b : Bool)
    (hurl : strBegins (renv.env.render tr.url c) "http" = true)
    (hsw : tr.stopWhen ≠ [])
    (hev : evalStopWhen renv.env tr.stopWhen
      (mkSimpleResponseHTTP renv.env (renv.httpResp c.iteration)).toJson = .ok b) :
    send renv tr c wsPos =
      .ok ((renv.httpResp c.iteration).body, b,
        { tr with lastResponse :=
            mkSimpleResponseHTTP renv.env (renv.httpResp c.iteration) }, wsPos) := by
  have hemp := list_isEmpty_false_of_ne_nil hsw
  simp [send, shouldContinueHTTPm, hurl, hemp, hev]

theorem send_http_err (renv : RunEnv) (tr : TemplateRequest)
    (c : RequestContext) (wsPos : Nat) (e : String)
    (hurl : strBegins (renv.env.render tr.url c) "http" = true)
    (hsw : tr.stopWhen ≠ [])
    (hev : evalStopWhen renv.env tr.stopWhen
      (mkSimpleResponseHTTP renv.env (renv.httpResp c.iteration)).toJson = .error e) :
    send renv tr c wsPos = .error e := by
  have hemp := list_isEmpty_false_of_ne_nil hsw
  simp [send, shouldContinueHTTPm, hurl, hemp, hev]

theorem recurseAux_http_last (renv : RunEnv) (u : String) (sw : List String)
    (hsw : sw ≠ [])
    (hurl : ∀ c', strBegins (renv.env.render u c') "http" = true) :
    ∀ (fuel k wsPos : Nat) (tr : TemplateRequest) (c : RequestContext)
      (acc : List (RequestContext × String)),
      tr.url = u → tr.stopWhen = sw → tr.lists = [] →
      ∃ tail, (recurseAux renv fuel k wsPos tr c acc).trace = acc.reverse ++ tail ∧
        (∀ e, tail.get? 0 = some e → e.1.lastResponse = some tr.lastResponse) ∧
        (∀ i e2, tail.get? (i + 1) = some e2 →
          e2.1.lastResponse =
            some (mkSimpleResponseHTTP renv.env (renv.httpResp (k + i)))) := by
  intro fuel
  induction fuel with
  | zero =>
    intro k wsPos tr c acc hu hs hl
    refine ⟨[], by simp [recurseAux, RunResult.trace], ?_, ?_⟩
    · intro e he
      rw [List.get?_nil] at he
      exact Option.noConfusion he
    · intro i e2 he
      rw [List.get?_nil] at he
      exact Option.noConfusion he
  | succ n ih =>
    intro k wsPos tr c acc hu hs hl
    have hstep : stepContext tr c k = .ok (advanceContext c tr.lastResponse k) :=
      stepContext_no_lists hl
    have hswtr : tr.stopWhen ≠ [] := by rw [hs]; exact hsw
    have hurl2 : strBegins
        (renv.env.render tr.url (advanceContext c tr.lastResponse k)) "http" = true := by
      rw [hu]
      exact hurl (advanceContext c tr.lastResponse k)
    cases hev : evalStopWhen renv.env tr.stopWhen
        (mkSimpleResponseHTTP renv.env
          (renv.httpResp (advanceContext c tr.lastResponse k).iteration)).toJson with
    | error e =>
      have hsend := send_http_err renv tr (advanceContext c tr.lastResponse k)
        wsPos e hurl2 hswtr hev
      have hred : recurseAux renv (n + 1) k wsPos tr c acc = .fatal e acc.reverse := by
        simp [recurseAux, hstep, hsend]
      refine ⟨[], by rw [hred]; simp [RunResult.trace], ?_, ?_⟩
      · intro e2 he
        rw [List.get?_nil] at he
        exact Option.noConfusion he
      · intro i e2 he
        rw [List.get?_nil] at he
        exact Option.noConfusion he
    | ok b =>
      have hsend := send_http_ok renv tr (advanceContext c tr.lastResponse k)
        wsPos b hurl2 hswtr hev
      cases b with
      | false =>
        have hred : recurseAux renv (n + 1) k wsPos tr c acc =
            .finished (((advanceContext c tr.lastResponse k,
              (renv.httpResp (advanceContext c tr.lastResponse k).iteration).body) ::
                acc)).reverse := by
          simp [recurseAux, hstep, hsend]
        refine ⟨[(advanceContext c tr.lastResponse k,
            (renv.httpResp (advanceContext c tr.lastResponse k).iteration).body)],
          by rw [hred]; simp [RunResult.trace, List.reverse_cons], ?_, ?_⟩
        · intro e he
          rw [List.get?_cons_zero] at he
          cases Option.some.inj he
          rfl
        · intro i e2 he
          rw [List.get?_cons_succ, List.get?_nil] at he
          exact Option.noConfusion he
      | true =>
        obtain ⟨tail2, htr2, hfirst2, hcons2⟩ :=
          ih (k + 1) wsPos
            { tr with lastResponse := (mkSimpleResponseHTTP renv.env
                (renv.httpResp (advanceContext c tr.lastResponse k).iteration)) }
            (advanceContext c tr.lastResponse k)
            ((advanceContext c tr.lastResponse k,
              (renv.httpResp (advanceContext c tr.lastResponse k).iteration).body) :: acc)
            hu hs hl
        have hred : recurseAux renv (n + 1) k wsPos tr c acc =
            recurseAux renv n (k + 1) wsPos
              { tr with lastResponse := (mkSimpleResponseHTTP renv.env
                  (renv.httpResp (advanceContext c tr.lastResponse k).iteration)) }
              (advanceContext c tr.lastResponse k)
              ((advanceContext c tr.lastResponse k,
                (renv.httpResp (advanceContext c tr.lastResponse k).iteration).body) ::
                  acc) := by
          simp [recurseAux, hstep, hsend]
        refine ⟨(advanceContext c tr.lastResponse k,
            (renv.httpResp (advanceContext c tr.lastResponse k).iteration).body) ::
              tail2, ?_, ?_, ?_⟩
        · rw [hred, htr2]
          simp [List.reverse_cons]
        · intro e he
          rw [List.get?_cons_zero] at he
          cases Option.some.inj he
          rfl
        · intro i e2 he
          cases i with
          | zero =>
            rw [List.get?_cons_succ] at he
            exact hfirst2 e2 he
          | succ i =>
            rw [List.get?_cons_succ] at he
            have hk : k + 1 + i = k + (i + 1) := by omega
            rw [← hk]
            exact hcons2 i e2 he

/-- C7 amended: the normalized response is stored back for the next
iteration only on the HTTP path: in an HTTP run with a non-empty
stop_when list, the context of every later iteration carries exactly the
normalized response of the previous exchange; the WebSocket branch of
`Send`, by contrast, never updates the engine's stored last response —
a successful WebSocket exchange leaves it unchanged, so WebSocket
iterations keep seeing the value from before (the zero response if no
HTTP exchange ever stored one). -/
theorem c7_last_response_http_only (renv : RunEnv) (tr : TemplateRequest)
    (c : RequestContext) (fuel : Nat)
    (hsw : tr.stopWhen ≠ []) (hlists : tr.lists = []) :
    ((∀ c', strBegins (renv.env.render tr.url c') "http" = true) →
      ∀ i e e2, (runRecurse renv fuel tr c).trace.get? i = some e →
        (runRecurse renv fuel tr c).trace.get? (i + 1) = some e2 →
        e2.1.lastResponse =
          some (mkSimpleResponseHTTP renv.env (renv.httpResp i))) ∧
    (∀ c' wsPos body b tr2 pos2,
      strBegins (renv.env.render tr.url c') "http" = false →
      send renv tr c' wsPos = .ok (body, b, tr2, pos2) →
      tr2.lastResponse = tr.lastResponse) := by
  constructor
  · intro hurl i e e2 hget hget2
    obtain ⟨tail, htr, hfirst, hcons⟩ :=
      recurseAux_http_last renv tr.url tr.stopWhen hsw hurl fuel 0 0 tr c []
        rfl rfl hlists
    rw [runRecurse] at hget2
    rw [htr] at hget2
    simp only [List.reverse_nil, List.nil_append] at hget2
    have hc := hcons i e2 hget2
    simpa using hc
  · intro c' wsPos body b tr2 pos2 hnh hsend
    unfold send at hsend
    simp only [hnh, Bool.false_eq_true, if_false] at hsend
    by_cases hws : strBegins (renv.env.render tr.url c') "ws:" = true
    · rw [if_pos hws] at hsend
      split at hsend
      · exact Except.noConfusion hsend
      · split at hsend
        · exact Except.noConfusion hsend
        · split at hsend
          · exact Except.noConfusion hsend
          · simp only [Except.ok.injEq, Prod.mk.injEq] at hsend
            obtain ⟨-, -, htr2, -⟩ := hsend
            rw [← htr2]
    · rw [if_neg hws] at hsend
      exact Except.noConfusion hsend

/-- C7 counterexample: a two-iteration WebSocket run in which the context
of iteration 1 still references the zero last response, not the
normalized response of iteration 0's exchange (whose raw body is m0) —
the WebSocket path never stores the normalized response back. -/
theorem c7_counterexample :
    ((runRecurse wsRunEnv 2 wsReq demoCtx).trace.get? 1).map
        (fun e => e.1.lastResponse) = some (some zeroSimpleResponse) ∧
    zeroSimpleResponse ≠ mkSimpleResponseWS wsRunEnv.env "m0" := by
  refine ⟨by rfl, ?_⟩
  intro h
  have hraw := congrArg SimpleResponse.rawBody h
  have hraw2 : ("" : String) = "m0" := hraw
  exact absurd hraw2 (by decide)

/-- Witness for C7: the HTTP part at a two-iteration run whose second
context holds the normalized first response, and the WebSocket part at a
successful exchange that leaves the stored response unchanged. -/
theorem c7_witness :
    ((advanceContext (advanceContext demoCtx zeroSimpleResponse 0)
        (mkSimpleResponseHTTP contEnv (spyRunEnv.httpResp 0)) 1, "1") :
      RequestContext × String).1.lastResponse =
      some (mkSimpleResponseHTTP spyRunEnv.env (spyRunEnv.httpResp 0)) ∧
    wsReq.lastResponse = wsReq.lastResponse :=
  ⟨(c7_last_response_http_only spyRunEnv spyReq demoCtx 2 (by decide) rfl).1
      (fun _ => rfl) 0 (advanceContext demoCtx zeroSimpleResponse 0, "0")
      (advanceContext (advanceContext demoCtx zeroSimpleResponse 0)
        (mkSimpleResponseHTTP contEnv (spyRunEnv.httpResp 0)) 1, "1")
      (by rfl) (by rfl),
   (c7_last_response_http_only wsRunEnv wsReq demoCtx 1 (by decide) rfl).2
      demoCtx 0 "m0" true wsReq 1 rfl rfl⟩

end Requrse
